import Mathlib

/-!
Verification of the batch execution and rollback engine of the
USDB-Syncer video transcoder addon.

The development is a shallow embedding of the Python sources:

* `src/batch_worker.py` — `BatchWorker.run`, the sequential per-candidate
  loop (modelled by `runFrom` / `processOne` below);
* `src/rollback.py` — `RollbackManager.record_transcode`,
  `RollbackManager.rollback_all` and the cleanup helpers;
* `src/rollback_backup_worker.py` — `RollbackBackupWorker.run`, the
  chunked pre-run backup copier;
* `src/batch_orchestrator.py` — `_execute_batch`, `_on_video_success`,
  `_apply_backup_preservation_rule` and `_handle_abort`.

Modelling conventions:

* Concurrently-read flags (`self._abort_requested or is_aborted(id)` in the
  worker, `self._abort_requested` in the backup worker) are modelled as
  oracles indexed by the poll site, since another thread may flip them at
  any time between polls.
* The external per-item encode collaborator (`process_video`) and the
  success hand-off callback may raise; both are modelled in
  `Except String`, the message being Python's exception text `str(e)`.
* Qt signal emissions are recorded in an explicit event trace.
* The filesystem is modelled as a partial map from paths (flat strings) to
  file contents (`List Nat` of bytes/chunks).
* Wall-clock fields (`actual_time_seconds`, `transcoded_at`,
  `duration_seconds`) and logging calls are omitted: no claim mentions
  them and they do not influence control flow.
-/

namespace BatchEngine

/-- Candidate lifecycle status, from the `status` literal type of
`BatchTranscodeCandidate` in `src/batch_orchestrator.py`. -/
inductive Status where
  | pending
  | transcoding
  | success
  | failed
  | aborted
  | skipped
  | rolledBack
  deriving DecidableEq, Repr

/-- Result of one encode, from `TranscodeResult` in `src/transcoder.py`
(fields not read by the batch engine are omitted). -/
structure TranscodeResult where
  success : Bool
  outputPath : Option String
  aborted : Bool := false
  errorMessage : Option String := none
  deriving DecidableEq, Repr

/-- One media candidate, from `BatchTranscodeCandidate` in
`src/batch_orchestrator.py` (scan-time metadata fields that the batch
engine never reads are omitted). -/
structure Candidate where
  songId : Nat
  videoPath : String
  selected : Bool := true
  status : Status := .pending
  errorMessage : Option String := none
  result : Option TranscodeResult := none
  deriving DecidableEq, Repr

/-- Signals emitted by `BatchWorker` (`video_started`, `video_completed`,
`batch_completed`, `batch_aborted`), tagged with the candidate index where
applicable. The payloads (title/artist, result object) are dropped. -/
inductive Ev where
  | started (i : Nat)
  | completed (i : Nat)
  | batchCompleted
  | batchAborted
  deriving DecidableEq, Repr

/-- Environment of one worker run.  `abortObs i` is the value the worker
reads for `self._abort_requested or is_aborted(candidate.song_id)` when it
reaches candidate `i`; `transcode i` is the outcome of the
`UsdbSong.get` + `process_video` block for candidate `i` (`.error` means an
exception escaped it). -/
structure WEnv where
  abortObs : Nat → Bool
  transcode : Nat → Except String TranscodeResult

/-- The per-candidate body of `BatchWorker.run` (lines 134-193 of
`src/batch_worker.py`): the candidate entered with status `transcoding`;
on an exception the candidate turns `failed` with the exception text; on a
result, `success` invokes the hand-off callback `on_video_success` (whose
own exception is caught by the same handler, after `status`/`result` were
already assigned), `aborted` turns the candidate `aborted`, anything else
`failed` with the result's error text.  `σ` is the state threaded through
the callback (the orchestrator's rollback manager). -/
def processOne {σ : Type} (tr : Except String TranscodeResult)
    (cb : σ → Candidate → Except String σ) (st : σ) (c : Candidate) :
    Candidate × σ :=
  match tr with
  | .error msg => ({ c with status := .failed, errorMessage := some msg }, st)
  | .ok r =>
    let c := { c with result := some r }
    if r.success then
      let c := { c with status := .success }
      match cb st c with
      | .ok st2 => (c, st2)
      | .error msg =>
        ({ c with status := .failed, errorMessage := some msg }, st)
    else if r.aborted then
      ({ c with status := .aborted }, st)
    else
      ({ c with status := .failed, errorMessage := r.errorMessage }, st)

/-- Marking of one remaining candidate on abort (lines 124-126 of
`src/batch_worker.py`): a `pending` candidate becomes `aborted` if
selected, `skipped` if not; others keep their status. -/
def markAbort (c : Candidate) : Candidate :=
  if c.status = .pending then
    { c with status := if c.selected then .aborted else .skipped }
  else c

/-- The candidate loop of `BatchWorker.run` (lines 117-196 of
`src/batch_worker.py`), processing the candidates at positions
`i, i+1, ...`.  Per candidate: if abort is observed, mark every remaining
candidate via `markAbort`, emit `batch_aborted` and stop; if unselected,
mark `skipped` and continue; otherwise run `processOne` and continue.
After the loop, emit `batch_completed`.  Returns the updated candidates,
the threaded callback state, and the event trace. -/
def runFrom {σ : Type} (env : WEnv) (cb : σ → Candidate → Except String σ)
    (st : σ) (i : Nat) : List Candidate → List Candidate × σ × List Ev
  | [] => ([], st, [.batchCompleted])
  | c :: rest =>
    if env.abortObs i then
      ((c :: rest).map markAbort, st, [.batchAborted])
    else if c.selected then
      let p := processOne (env.transcode i) cb st { c with status := .transcoding }
      let t := runFrom env cb p.2 (i + 1) rest
      (p.1 :: t.1, t.2.1, .started i :: .completed i :: t.2.2)
    else
      let t := runFrom env cb st (i + 1) rest
      ({ c with status := .skipped } :: t.1, t.2.1, t.2.2)

/-- `BatchWorker.run` on the whole candidate list. -/
def runWorker {σ : Type} (env : WEnv) (cb : σ → Candidate → Except String σ)
    (st : σ) (cs : List Candidate) : List Candidate × σ × List Ev :=
  runFrom env cb st 0 cs

/-- An event concerns only candidates before position `n` (`batch_completed`
and `batch_aborted` carry no index). -/
def evIdxLt (n : Nat) : Ev → Prop
  | .started i => i < n
  | .completed i => i < n
  | .batchCompleted => True
  | .batchAborted => True

/-! Concrete fixtures used by the witness theorems. -/

/-- A fresh candidate as built by the scan phase: status `pending`, no
error, no result. -/
def wCand (id : Nat) (sel : Bool) : Candidate :=
  { songId := id, videoPath := "v" ++ toString id ++ ".mp4", selected := sel }

/-- Environment in which the abort flag is observed set exactly when the
worker reaches candidate 1, and every encode succeeds. -/
def wEnvAbort1 : WEnv :=
  { abortObs := fun j => decide (j = 1),
    transcode := fun _ => .ok { success := true, outputPath := some "out.mp4" } }

/-- Environment in which no abort is ever observed and every encode raises
an exception with text `boom`. -/
def wEnvExn : WEnv :=
  { abortObs := fun _ => false, transcode := fun _ => .error "boom" }

/-- A success hand-off callback that never raises and keeps its state. -/
def wCbId : Unit → Candidate → Except String Unit := fun st _ => .ok st

/-! ### Filesystem model

Paths are flat strings (a directory is a string prefix ending in `/`);
file contents are lists of naturals, one element per chunk of bytes. -/

/-- File contents, one element per chunk. -/
abbrev Bytes := List Nat

/-- The filesystem: a partial map from paths to contents. -/
def FS : Type := String → Option Bytes

/-- `Path.exists()`. -/
def FS.exists (fs : FS) (p : String) : Bool := (fs p).isSome

/-- `Path.unlink()` (with `missing_ok` semantics: erasing an absent path
is a no-op). -/
def FS.erase (fs : FS) (p : String) : FS :=
  fun q => if q = p then none else fs q

/-- Write a whole file (`open(p, "wb")` followed by writes). -/
def FS.write (fs : FS) (p : String) (b : Bytes) : FS :=
  fun q => if q = p then some b else fs q

/-- `shutil.copy2 src dst` (call sites guard that `src` exists; on a
missing source the model leaves the filesystem unchanged where Python
would raise). -/
def FS.copy (fs : FS) (src dst : String) : FS :=
  match fs src with
  | some b => fs.write dst b
  | none => fs

/-- Directory-prefix test over flat paths (character-wise prefix). -/
def isUnder (dir p : String) : Bool := dir.data.isPrefixOf p.data

/-- `shutil.rmtree dir`: every path under the directory disappears. -/
def FS.eraseDir (fs : FS) (dir : String) : FS :=
  fun q => if isUnder dir q then none else fs q

/-! ### Path name helpers

`pathlib.Path.stem` / `.suffix` over the flat-path model: split the name
at its last dot.  Leading-dot filenames (where Python's `suffix` would be
empty) are outside the model; all paths in this development are ordinary
`name.ext` names. -/

/-- Split a character list into (stem, last dot-suffix). -/
def splitExtChars : List Char → List Char × List Char
  | [] => ([], [])
  | ch :: cs =>
    if ch = '.' ∧ '.' ∉ cs then ([], ch :: cs)
    else
      let p := splitExtChars cs
      (ch :: p.1, p.2)

/-- `Path.stem` over flat paths. -/
def pathStem (p : String) : String := ⟨(splitExtChars p.data).1⟩

/-- `Path.suffix` over flat paths. -/
def pathExt (p : String) : String := ⟨(splitExtChars p.data).2⟩

/-- The user-facing backup path of a media file:
`path.with_name(stem + backup_suffix + suffix)`, as computed identically
in `_create_rollback_backups` (lines 487-489) and
`_apply_backup_preservation_rule` (lines 588-589) of
`src/batch_orchestrator.py`. -/
def userBackupPath (sfx : String) (p : String) : String :=
  pathStem p ++ sfx ++ pathExt p

/-! ### Rollback manager (`src/rollback.py`) -/

/-- One rollback record, from `RollbackEntry` in `src/rollback.py` (the
`transcoded_at` wall-clock stamp is omitted). -/
structure RollbackEntry where
  songId : Nat
  originalPath : String
  rollbackBackupPath : String
  newOutputPath : String
  userBackupExisted : Bool
  deriving DecidableEq, Repr

/-- In-memory state of `RollbackManager`: the per-run temp directory and
the append-only entry list (the JSON manifest is a write-only diagnostic
mirror of `entries` and is not modelled). -/
structure RollbackManager where
  rollbackDir : String
  entries : List RollbackEntry := []
  deriving DecidableEq, Repr

/-- `RollbackManager.get_rollback_backup_path` (lines 85-99 of
`src/rollback.py`):
`rollback_dir / f"video_{song_id}_{original_path.stem}{original_path.suffix}"`. -/
def getRollbackBackupPath (rbDir : String) (songId : Nat) (originalPath : String) : String :=
  rbDir ++ "/video_" ++ toString songId ++ "_" ++ pathStem originalPath ++ pathExt originalPath

/-- `RollbackManager.record_transcode` (lines 101-127 of
`src/rollback.py`): append one entry (the manifest save is a non-fatal
external write). -/
def recordTranscode (mgr : RollbackManager) (e : RollbackEntry) : RollbackManager :=
  { mgr with entries := mgr.entries ++ [e] }

/-- Actions performed by `RollbackManager.rollback_all`, in order. -/
inductive RbAction where
  | attemptRestore (e : RollbackEntry)
  | removeTempDir
  deriving DecidableEq, Repr

/-- State threaded through the `rollback_all` loop: the filesystem, the
`success` and `failed` tallies, the successfully restored song ids in
append order, and the action trace. -/
structure RbState where
  fs : FS
  success : Nat := 0
  failed : Nat := 0
  successfulIds : List Nat := []
  trace : List RbAction := []

/-- One iteration of the `rollback_all` loop (lines 140-168 of
`src/rollback.py`): if the rollback backup is missing, tally a failure
and continue; otherwise remove any file at the original location, copy
the rollback backup back, delete the new output if it exists at a
different path, and ask the external metadata collaborator to repoint
references (`_update_sync_meta_for_rollback`).  `exn` models an exception
raised by that external call (the one non-filesystem step inside the
`try`), which the `except` arm tallies as a failure. -/
def rollbackStep (exn : Bool) (s : RbState) (e : RollbackEntry) : RbState :=
  let s := { s with trace := s.trace ++ [RbAction.attemptRestore e] }
  if ¬ s.fs.exists e.rollbackBackupPath then
    { s with failed := s.failed + 1 }
  else
    let fs1 := if s.fs.exists e.originalPath then s.fs.erase e.originalPath else s.fs
    let fs2 := fs1.copy e.rollbackBackupPath e.originalPath
    let fs3 := if fs2.exists e.newOutputPath ∧ e.newOutputPath ≠ e.originalPath then
        fs2.erase e.newOutputPath
      else fs2
    if exn then { s with fs := fs3, failed := s.failed + 1 }
    else
      { s with fs := fs3, success := s.success + 1,
               successfulIds := s.successfulIds ++ [e.songId] }

/-- The `rollback_all` loop body over an already-reversed entry list;
`exnAt j` tells whether the external metadata call raises at iteration `j`. -/
def rollbackLoop (exnAt : Nat → Bool) : Nat → RbState → List RollbackEntry → RbState
  | _, s, [] => s
  | j, s, e :: es => rollbackLoop exnAt (j + 1) (rollbackStep (exnAt j) s e) es

/-- `RollbackManager.rollback_all` (lines 129-171 of `src/rollback.py`):
iterate the recorded entries in reverse order, then remove the per-run
temp directory (`_cleanup_rollback_directory`). -/
def rollbackAll (exnAt : Nat → Bool) (fs : FS) (rbDir : String)
    (entries : List RollbackEntry) : RbState :=
  let s := rollbackLoop exnAt 0 { fs := fs } entries.reverse
  { s with fs := s.fs.eraseDir rbDir, trace := s.trace ++ [RbAction.removeTempDir] }

/-- The entry attempted by an action, if any. -/
def attemptedOf : RbAction → Option RollbackEntry
  | .attemptRestore e => some e
  | .removeTempDir => none

/-! ### Orchestrator finalization (`src/batch_orchestrator.py`) -/

/-- The status update performed by `_handle_abort` for one successfully
rolled-back song id (lines 656-659 of `src/batch_orchestrator.py`):
`next((c for c in self.candidates if c.song_id == song_id), None)` finds
the first candidate with that id, and only a candidate whose status is
`success` is set to `rolled_back`. -/
def setRolledBackFor (sid : Nat) : List Candidate → List Candidate
  | [] => []
  | c :: cs =>
    if c.songId = sid then
      (if c.status = .success then { c with status := .rolledBack } :: cs
       else c :: cs)
    else c :: setRolledBackFor sid cs

/-- `_handle_abort`'s update loop over all song ids returned as
successfully restored by `rollback_all`. -/
def applyRolledBack (ids : List Nat) (cs : List Candidate) : List Candidate :=
  ids.foldl (fun acc sid => setRolledBackFor sid acc) cs

/-- Environment with no aborts and every encode succeeding with output
`out.mp4`. -/
def wEnvOk : WEnv :=
  { abortObs := fun _ => false,
    transcode := fun _ => .ok { success := true, outputPath := some "out.mp4" } }

/-- The candidate of the C7 witness after transcode and rollback. -/
def wRolledC : Candidate :=
  { songId := 0, videoPath := "v0.mp4", status := .rolledBack,
    result := some { success := true, outputPath := some "out.mp4" } }

/-- Outcome of the backup-copy phase as observed by the orchestrator's
signal handlers: the backup worker emits exactly one of `finished`,
`error` or `aborted` (`RollbackBackupWorker.run`); `finished` also
records whether the user had meanwhile requested an abort
(`_backup_abort_requested`), and `error` records the user's answer to
the continue-without-rollback-protection prompt. -/
inductive BackupPhase where
  | finished (abortRequested : Bool)
  | error (userContinues : Bool)
  | aborted
  deriving DecidableEq, Repr

/-- `_backup_success` as left by `_on_backup_finished`,
`_on_backup_error` and `_on_backup_aborted` (lines 530-568 of
`src/batch_orchestrator.py`): true only for an untainted `finished`, or
an `error` the user explicitly chose to continue past. -/
def backupSuccess : BackupPhase → Bool
  | .finished ab => !ab
  | .error yes => yes
  | .aborted => false

/-- The pre-worker part of `_execute_batch` (lines 420-436 of
`src/batch_orchestrator.py`): return early if nothing is selected; if
rollback is enabled, run the backup-copy phase and return early (cleaning
up the temp directory, which holds no candidate state) unless it
succeeded; only then is the `BatchWorker` constructed and started.
Returns whether the worker was started, together with the candidate
list — which no early path ever writes (the backup worker only copies
files). -/
def executeBatch (rollbackEnabled : Bool) (phase : BackupPhase)
    (cs : List Candidate) : Bool × List Candidate :=
  if (cs.filter (fun c => c.selected)).isEmpty then (false, cs)
  else if rollbackEnabled ∧ backupSuccess phase = false then (false, cs)
  else (true, cs)

/-- One entry of `_apply_backup_preservation_rule` (lines 582-603 of
`src/batch_orchestrator.py`): `next(...)` finds the first candidate with
the entry's song id; the entry is skipped unless that candidate has a
successful result; then, if a user-facing backup exists on disk and the
rollback backup still exists, the user backup is overwritten with the
rollback-backup bytes (`shutil.copy2`). -/
def preserveEntry (sfx : String) (cands : List Candidate) (fs : FS)
    (e : RollbackEntry) : FS :=
  match cands.find? (fun c => c.songId == e.songId) with
  | none => fs
  | some cand =>
    match cand.result with
    | none => fs
    | some r =>
      if r.success then
        if fs.exists (userBackupPath sfx e.originalPath) then
          (if fs.exists e.rollbackBackupPath then
            fs.copy e.rollbackBackupPath (userBackupPath sfx e.originalPath)
          else fs)
        else fs
      else fs

/-- `_apply_backup_preservation_rule`: fold `preserveEntry` over the
recorded entries in order. -/
def applyBackupPreservationRule (sfx : String) (cands : List Candidate)
    (fs : FS) (entries : List RollbackEntry) : FS :=
  entries.foldl (preserveEntry sfx cands) fs

/-- `RollbackManager.cleanup_rollback_data` (lines 173-185 of
`src/rollback.py`): remove the whole per-run rollback temp directory. -/
def cleanupRollbackData (fs : FS) (rbDir : String) : FS := fs.eraseDir rbDir

/-- The successful-completion finalization of `_execute_batch`
(lines 465-473 of `src/batch_orchestrator.py`): apply the backup
preservation rule first, then clean up the rollback data. -/
def finalizeSuccess (sfx rbDir : String) (cands : List Candidate)
    (fs : FS) (entries : List RollbackEntry) : FS :=
  cleanupRollbackData (applyBackupPreservationRule sfx cands fs entries) rbDir

/-- `_on_video_success` (lines 605-629 of `src/batch_orchestrator.py`)
as called against `RollbackManager` from `src/rollback.py`: after the
guard `self.rollback_manager and candidate.result and
candidate.result.output_path`, the call
`get_rollback_backup_path(candidate.song_id, candidate.video_path,
media_type=candidate.media_type)` raises a `TypeError`, because the
method signature in `src/rollback.py` (line 85) has no `media_type`
parameter — likewise `record_transcode` is passed six data arguments
against a five-parameter signature.  The exception escapes into the
worker's per-candidate handler; no entry is ever appended. -/
def onVideoSuccess (mgr : Option RollbackManager) (c : Candidate) :
    Except String (Option RollbackManager) :=
  match mgr with
  | none => .ok none
  | some st =>
    match c.result with
    | none => .ok (some st)
    | some r =>
      match r.outputPath with
      | none => .ok (some st)
      | some _ =>
        .error "TypeError: get_rollback_backup_path() got an unexpected keyword argument media_type"

/-! ### Backup-copy worker (`src/rollback_backup_worker.py`) -/

/-- Signals and filesystem actions of `RollbackBackupWorker.run`, in
order (chunk-level progress re-emissions and signal payloads such as
byte counts are omitted). -/
inductive BEv where
  | progress (cur total : Nat)
  | removedPartial (p : String)
  | errorSig (p : String)
  | abortedSig
  | finishedSig
  deriving DecidableEq, Repr

/-- The chunked copy loop of `RollbackBackupWorker.run` (lines 70-84):
before each read, poll the abort flag (`pollAbort k` is the value read
at the k-th poll while copying this file); on abort, unlink the
partially written destination (`missing_ok=True`) and report
not-completed; otherwise append the next chunk to the destination until
the source is exhausted. -/
def copyChunks (pollAbort : Nat → Bool) (dst : String) :
    Nat → FS → List Nat → FS × Bool
  | k, fs, rem =>
    if pollAbort k then (fs.erase dst, false)
    else
      match rem with
      | [] => (fs, true)
      | ch :: rest =>
        copyChunks pollAbort dst (k + 1)
          (fs.write dst (((fs dst).getD []) ++ [ch])) rest

/-- `RollbackBackupWorker.run` (lines 41-103 of
`src/rollback_backup_worker.py`): per candidate, poll the abort flag
(`pollAbort i 0`, line 47), emit progress, compute the rollback backup
destination, stop with an error signal if the source cannot be read
(`stat`/`open` raising), otherwise create the destination
(`open(..., "wb")` truncates to an empty file) and copy in chunks, with
`pollAbort i (k+1)` the k-th in-copy poll; an abort mid-copy unlinks the
partial file and then emits `aborted`; an exhausted candidate list emits
the final progress and `finished`. -/
def runBackupAux (pollAbort : Nat → Nat → Bool) (rbDir : String) (total : Nat) :
    Nat → FS → List Candidate → FS × List BEv
  | _, fs, [] => (fs, [.progress total total, .finishedSig])
  | i, fs, c :: rest =>
    if pollAbort i 0 then (fs, [.abortedSig])
    else
      match fs c.videoPath with
      | none =>
        (fs, [.progress i total,
          .errorSig (getRollbackBackupPath rbDir c.songId c.videoPath)])
      | some content =>
        let r := copyChunks (fun k => pollAbort i (k + 1))
          (getRollbackBackupPath rbDir c.songId c.videoPath) 0
          (fs.write (getRollbackBackupPath rbDir c.songId c.videoPath) []) content
        if r.2 then
          let t := runBackupAux pollAbort rbDir total (i + 1) r.1 rest
          (t.1, .progress i total :: t.2)
        else
          (r.1, [.progress i total,
            .removedPartial (getRollbackBackupPath rbDir c.songId c.videoPath),
            .abortedSig])

/-- `RollbackBackupWorker.run` over the whole selected-candidate list. -/
def runBackupWorker (pollAbort : Nat → Nat → Bool) (rbDir : String)
    (fs : FS) (cands : List Candidate) : FS × List BEv :=
  runBackupAux pollAbort rbDir cands.length 0 fs cands

/-! Fixtures for the C9 and C10 witnesses. -/

/-- C9 witness entry: candidate 1's `a.mp4`, rollback backup recorded,
user backup pre-existing. -/
def wPresE : RollbackEntry :=
  { songId := 1, originalPath := "a.mp4",
    rollbackBackupPath := "/tmp/rb/video_1_a.mp4",
    newOutputPath := "a.mp4", userBackupExisted := true }

/-- C9 witness candidate: transcode succeeded. -/
def wPresCand : Candidate :=
  { songId := 1, videoPath := "a.mp4", status := .success,
    result := some { success := true, outputPath := some "a.mp4" } }

/-- C9 witness filesystem at batch completion: the transcoded video, the
pre-existing user backup (stale bytes `[1]`), and the rollback backup
holding the pre-transcode bytes `[3]`. -/
def wPresFS : FS := fun q =>
  if q = "a.mp4" then some [7]
  else if q = "a-source.mp4" then some [1]
  else if q = "/tmp/rb/video_1_a.mp4" then some [3]
  else none

/-- C10 witness filesystem: just the source video, three chunks long. -/
def wCopyFS : FS := fun q => if q = "v0.mp4" then some [5, 6, 7] else none

/-- C10 witness poll oracle: the abort is observed at candidate 0's
second in-copy poll (after one chunk was written). -/
def wPollAbort : Nat → Nat → Bool := fun i k => decide (i = 0 ∧ k = 2)

theorem runFrom_abort_drop {σ : Type} (env : WEnv)
    (cb : σ → Candidate → Except String σ) :
    ∀ (cs : List Candidate) (d a : Nat) (st : σ), d < cs.length →
      (∀ j, j < d → env.abortObs (a + j) = false) →
      env.abortObs (a + d) = true →
      (runFrom env cb st a cs).1.drop d = (cs.drop d).map markAbort := by
  intro cs
  induction cs with
  | nil => intro d a st hd _ _; simp at hd
  | cons c rest ih =>
    intro d a st hd hfirst habort
    cases d with
    | zero =>
      rw [Nat.add_zero] at habort
      simp [runFrom, habort]
    | succ d =>
      have h0 : env.abortObs a = false := by
        have := hfirst 0 (Nat.succ_pos d); simpa using this
      have hd' : d < rest.length := by
        simpa using Nat.lt_of_succ_lt_succ hd
      have hfirst' : ∀ j, j < d → env.abortObs (a + 1 + j) = false := by
        intro j hj
        have := hfirst (j + 1) (Nat.succ_lt_succ hj)
        rwa [show a + (j + 1) = a + 1 + j by omega] at this
      have habort' : env.abortObs (a + 1 + d) = true := by
        rwa [show a + 1 + d = a + (d + 1) by omega]
      by_cases hsel : c.selected = true <;>
        simp only [runFrom, h0, Bool.false_eq_true, if_false, hsel, if_true] <;>
        simpa [List.drop_succ_cons] using ih d (a + 1) _ hd' hfirst' habort'

theorem runFrom_abort_mem {σ : Type} (env : WEnv)
    (cb : σ → Candidate → Except String σ) :
    ∀ (cs : List Candidate) (d a : Nat) (st : σ), d < cs.length →
      (∀ j, j < d → env.abortObs (a + j) = false) →
      env.abortObs (a + d) = true →
      Ev.batchAborted ∈ (runFrom env cb st a cs).2.2 := by
  intro cs
  induction cs with
  | nil => intro d a st hd _ _; simp at hd
  | cons c rest ih =>
    intro d a st hd hfirst habort
    cases d with
    | zero =>
      rw [Nat.add_zero] at habort
      simp [runFrom, habort]
    | succ d =>
      have h0 : env.abortObs a = false := by
        have := hfirst 0 (Nat.succ_pos d); simpa using this
      have hd' : d < rest.length := by
        simpa using Nat.lt_of_succ_lt_succ hd
      have hfirst' : ∀ j, j < d → env.abortObs (a + 1 + j) = false := by
        intro j hj
        have := hfirst (j + 1) (Nat.succ_lt_succ hj)
        rwa [show a + (j + 1) = a + 1 + j by omega] at this
      have habort' : env.abortObs (a + 1 + d) = true := by
        rwa [show a + 1 + d = a + (d + 1) by omega]
      by_cases hsel : c.selected = true <;>
        simp only [runFrom, h0, Bool.false_eq_true, if_false, hsel, if_true,
          List.mem_cons] <;>
        simp [ih d (a + 1) _ hd' hfirst' habort']

theorem runFrom_abort_events {σ : Type} (env : WEnv)
    (cb : σ → Candidate → Except String σ) :
    ∀ (cs : List Candidate) (d a : Nat) (st : σ), d < cs.length →
      (∀ j, j < d → env.abortObs (a + j) = false) →
      env.abortObs (a + d) = true →
      ∀ e ∈ (runFrom env cb st a cs).2.2, evIdxLt (a + d) e := by
  intro cs
  induction cs with
  | nil => intro d a st hd _ _; simp at hd
  | cons c rest ih =>
    intro d a st hd hfirst habort
    cases d with
    | zero =>
      rw [Nat.add_zero] at habort
      simp [runFrom, habort, evIdxLt]
    | succ d =>
      have h0 : env.abortObs a = false := by
        have := hfirst 0 (Nat.succ_pos d); simpa using this
      have hd' : d < rest.length := by
        simpa using Nat.lt_of_succ_lt_succ hd
      have hfirst' : ∀ j, j < d → env.abortObs (a + 1 + j) = false := by
        intro j hj
        have := hfirst (j + 1) (Nat.succ_lt_succ hj)
        rwa [show a + (j + 1) = a + 1 + j by omega] at this
      have habort' : env.abortObs (a + 1 + d) = true := by
        rwa [show a + 1 + d = a + (d + 1) by omega]
      have hshift : a + 1 + d = a + (d + 1) := by omega
      by_cases hsel : c.selected = true <;>
        simp only [runFrom, h0, Bool.false_eq_true, if_false, hsel, if_true,
          List.mem_cons]
      · rintro e (rfl | rfl | he)
        · simp [evIdxLt]
        · simp [evIdxLt]
        · have := ih d (a + 1) _ hd' hfirst' habort' e he
          rwa [hshift] at this
      · intro e he
        have := ih d (a + 1) _ hd' hfirst' habort' e he
        rwa [hshift] at this

theorem runFrom_completed_iff {σ : Type} (env : WEnv)
    (cb : σ → Candidate → Except String σ) :
    ∀ (cs : List Candidate) (a : Nat) (st : σ),
      (Ev.batchCompleted ∈ (runFrom env cb st a cs).2.2 ↔
        ∀ k, k < cs.length → env.abortObs (a + k) = false) := by
  intro cs
  induction cs with
  | nil => intro a st; simp [runFrom]
  | cons c rest ih =>
    intro a st
    by_cases h0 : env.abortObs a = true
    · simp only [runFrom, h0, if_true]
      constructor
      · intro hmem; simp at hmem
      · intro hall
        have := hall 0 (Nat.succ_pos _)
        rw [Nat.add_zero] at this
        rw [h0] at this
        exact absurd this (by simp)
    · have h0' : env.abortObs a = false := by
        revert h0; cases env.abortObs a <;> simp
      have hsplit : (∀ k, k < (c :: rest).length → env.abortObs (a + k) = false) ↔
          (∀ k, k < rest.length → env.abortObs (a + 1 + k) = false) := by
        constructor
        · intro hall k hk
          have := hall (k + 1) (by simpa using Nat.succ_lt_succ hk)
          rwa [show a + (k + 1) = a + 1 + k by omega] at this
        · intro hall k hk
          cases k with
          | zero => simpa using h0'
          | succ k =>
            have := hall k (by simpa using Nat.lt_of_succ_lt_succ hk)
            rwa [show a + (k + 1) = a + 1 + k by omega]
      by_cases hsel : c.selected = true <;>
        simp only [runFrom, h0', Bool.false_eq_true, if_false, hsel, if_true,
          List.mem_cons, false_or] <;>
        rw [hsplit] <;>
        simpa using ih (a + 1) _

theorem runFrom_aborted_iff {σ : Type} (env : WEnv)
    (cb : σ → Candidate → Except String σ) :
    ∀ (cs : List Candidate) (a : Nat) (st : σ),
      (Ev.batchAborted ∈ (runFrom env cb st a cs).2.2 ↔
        ∃ k, k < cs.length ∧ env.abortObs (a + k) = true) := by
  intro cs
  induction cs with
  | nil => intro a st; simp [runFrom]
  | cons c rest ih =>
    intro a st
    by_cases h0 : env.abortObs a = true
    · simp only [runFrom, h0, if_true]
      constructor
      · intro _
        exact ⟨0, Nat.succ_pos _, by simpa using h0⟩
      · intro _; simp
    · have h0' : env.abortObs a = false := by
        revert h0; cases env.abortObs a <;> simp
      have hsplit : (∃ k, k < (c :: rest).length ∧ env.abortObs (a + k) = true) ↔
          (∃ k, k < rest.length ∧ env.abortObs (a + 1 + k) = true) := by
        constructor
        · rintro ⟨k, hk, habk⟩
          cases k with
          | zero =>
            rw [Nat.add_zero] at habk
            rw [habk] at h0'
            exact absurd h0' (by simp)
          | succ k =>
            refine ⟨k, by simpa using Nat.lt_of_succ_lt_succ hk, ?_⟩
            rwa [show a + 1 + k = a + (k + 1) by omega]
        · rintro ⟨k, hk, habk⟩
          refine ⟨k + 1, by simpa using Nat.succ_lt_succ hk, ?_⟩
          rwa [show a + (k + 1) = a + 1 + k by omega]
      by_cases hsel : c.selected = true <;>
        simp only [runFrom, h0', Bool.false_eq_true, if_false, hsel, if_true,
          List.mem_cons, false_or] <;>
        rw [hsplit] <;>
        simpa using ih (a + 1) _

theorem runFrom_terminal_count {σ : Type} (env : WEnv)
    (cb : σ → Candidate → Except String σ) :
    ∀ (cs : List Candidate) (a : Nat) (st : σ),
      (runFrom env cb st a cs).2.2.count Ev.batchCompleted +
        (runFrom env cb st a cs).2.2.count Ev.batchAborted = 1 := by
  intro cs
  induction cs with
  | nil => intro a st; simp [runFrom]
  | cons c rest ih =>
    intro a st
    by_cases h0 : env.abortObs a = true
    · simp [runFrom, h0]
    · have h0' : env.abortObs a = false := by
        revert h0; cases env.abortObs a <;> simp
      by_cases hsel : c.selected = true <;>
        simp only [runFrom, h0', Bool.false_eq_true, if_false, hsel, if_true,
          List.count_cons] <;>
        simpa using ih (a + 1) _

/-- C1: if the worker, on reaching position `i`, observes that a global
abort was requested or that candidate `i`'s abort flag is set (and no
abort was observed at an earlier position — otherwise it would not have
reached `i`), it marks every remaining `pending` candidate `aborted` if
selected and `skipped` if not (`markAbort`), emits the `batch_aborted`
signal, and processes no further candidates (no `video_started` or
`video_completed` event at or after `i`). -/
theorem worker_abort_marks_remaining {σ : Type} (env : WEnv)
    (cb : σ → Candidate → Except String σ) (st : σ) (cs : List Candidate)
    (i : Nat) (hi : i < cs.length)
    (hfirst : ∀ j, j < i → env.abortObs j = false)
    (habort : env.abortObs i = true) :
    (runWorker env cb st cs).1.drop i = (cs.drop i).map markAbort ∧
    Ev.batchAborted ∈ (runWorker env cb st cs).2.2 ∧
    ∀ e ∈ (runWorker env cb st cs).2.2, evIdxLt i e := by
  have hf : ∀ j, j < i → env.abortObs (0 + j) = false := by simpa using hfirst
  have ha : env.abortObs (0 + i) = true := by simpa using habort
  exact ⟨runFrom_abort_drop env cb cs i 0 st hi hf ha,
    runFrom_abort_mem env cb cs i 0 st hi hf ha,
    by simpa using runFrom_abort_events env cb cs i 0 st hi hf ha⟩

/-- Witness for C1: three candidates, the abort observed on reaching
candidate 1. -/
theorem worker_abort_marks_remaining_witness :
    (1 < ([wCand 0 true, wCand 1 true, wCand 2 false] : List Candidate).length) ∧
    (∀ j, j < 1 → wEnvAbort1.abortObs j = false) ∧
    (wEnvAbort1.abortObs 1 = true) ∧
    ((runWorker wEnvAbort1 wCbId () [wCand 0 true, wCand 1 true, wCand 2 false]).1.drop 1 =
        (([wCand 0 true, wCand 1 true, wCand 2 false] : List Candidate).drop 1).map markAbort ∧
      Ev.batchAborted ∈ (runWorker wEnvAbort1 wCbId () [wCand 0 true, wCand 1 true, wCand 2 false]).2.2 ∧
      ∀ e ∈ (runWorker wEnvAbort1 wCbId () [wCand 0 true, wCand 1 true, wCand 2 false]).2.2,
        evIdxLt 1 e) :=
  ⟨by decide, by decide, by decide,
    worker_abort_marks_remaining wEnvAbort1 wCbId ()
      [wCand 0 true, wCand 1 true, wCand 2 false] 1
      (by decide) (by decide) (by decide)⟩

/-- C2: the `batch_completed` signal is emitted iff the loop reaches its
natural end with no abort observed at any position; `batch_aborted` is
emitted iff an abort was observed at some position; and exactly one of
the two terminal signals fires per run. -/
theorem worker_terminal_signals {σ : Type} (env : WEnv)
    (cb : σ → Candidate → Except String σ) (st : σ) (cs : List Candidate) :
    (Ev.batchCompleted ∈ (runWorker env cb st cs).2.2 ↔
      ∀ k, k < cs.length → env.abortObs k = false) ∧
    (Ev.batchAborted ∈ (runWorker env cb st cs).2.2 ↔
      ∃ k, k < cs.length ∧ env.abortObs k = true) ∧
    (runWorker env cb st cs).2.2.count Ev.batchCompleted +
      (runWorker env cb st cs).2.2.count Ev.batchAborted = 1 := by
  refine ⟨?_, ?_, runFrom_terminal_count env cb cs 0 st⟩
  · simpa using runFrom_completed_iff env cb cs 0 st
  · simpa using runFrom_aborted_iff env cb cs 0 st

/-- C3: an uncaught exception while processing one candidate — whether
raised by the encode step itself or inside the success hand-off callback
after a successful result — is caught by the worker: the candidate's
status becomes `failed` with the captured exception text, and the run
continues with the rest of the list exactly as it would have from the
next candidate (same tail of candidates, same callback state, events
continuing after this item's `started`/`completed`). -/
theorem worker_exception_isolated {σ : Type} (env : WEnv)
    (cb : σ → Candidate → Except String σ) (st : σ) (i : Nat)
    (c : Candidate) (rest : List Candidate) (msg : String)
    (habort : env.abortObs i = false) (hsel : c.selected = true)
    (hexn : env.transcode i = .error msg ∨
      ∃ r, env.transcode i = .ok r ∧ r.success = true ∧
        cb st { c with status := .success, result := some r } = .error msg) :
    ∃ ch, runFrom env cb st i (c :: rest) =
        (ch :: (runFrom env cb st (i + 1) rest).1,
          (runFrom env cb st (i + 1) rest).2.1,
          .started i :: .completed i :: (runFrom env cb st (i + 1) rest).2.2) ∧
      ch.songId = c.songId ∧ ch.status = .failed ∧
      ch.errorMessage = some msg := by
  rcases hexn with hmsg | ⟨r, hr, hsucc, hcb⟩
  · refine ⟨{ c with status := .failed, errorMessage := some msg }, ?_, rfl, rfl, rfl⟩
    simp [runFrom, habort, hsel, processOne, hmsg]
  · refine ⟨{ c with status := .failed, errorMessage := some msg, result := some r }, ?_, rfl, rfl, rfl⟩
    simp only [hsel] at hcb
    simp [runFrom, habort, hsel, processOne, hr, hsucc, hcb]

theorem rollbackStep_trace (exn : Bool) (s : RbState) (e : RollbackEntry) :
    (rollbackStep exn s e).trace = s.trace ++ [RbAction.attemptRestore e] := by
  unfold rollbackStep
  dsimp only
  split
  · rfl
  · split
    · rfl
    · rfl

theorem rollbackStep_tally (exn : Bool) (s : RbState) (e : RollbackEntry) :
    (rollbackStep exn s e).success + (rollbackStep exn s e).failed =
      s.success + s.failed + 1 := by
  unfold rollbackStep
  dsimp only
  split
  · dsimp only; omega
  · split
    · dsimp only; omega
    · dsimp only; omega

theorem rollbackLoop_trace (exnAt : Nat → Bool) :
    ∀ (es : List RollbackEntry) (j : Nat) (s : RbState),
      (rollbackLoop exnAt j s es).trace =
        s.trace ++ es.map RbAction.attemptRestore := by
  intro es
  induction es with
  | nil => intro j s; simp [rollbackLoop]
  | cons e es ih =>
    intro j s
    simp [rollbackLoop, ih, rollbackStep_trace]

theorem rollbackLoop_tally (exnAt : Nat → Bool) :
    ∀ (es : List RollbackEntry) (j : Nat) (s : RbState),
      (rollbackLoop exnAt j s es).success + (rollbackLoop exnAt j s es).failed =
        s.success + s.failed + es.length := by
  intro es
  induction es with
  | nil => intro j s; simp [rollbackLoop]
  | cons e es ih =>
    intro j s
    have h := rollbackStep_tally (exnAt j) s e
    simp only [rollbackLoop, ih, List.length_cons]
    omega

theorem filterMap_attempted (l : List RollbackEntry) :
    l.filterMap (attemptedOf ∘ RbAction.attemptRestore) = l := by
  induction l with
  | nil => rfl
  | cons e l ih => simp [attemptedOf, ih, Function.comp]

/-- C4: `rollback_all` attempts to restore the recorded entries in
exactly the reverse of the order in which they were recorded: the
sequence of restore attempts in its action trace is the reverse of the
entry list. -/
theorem rollback_all_reverse_order (exnAt : Nat → Bool) (fs : FS)
    (rbDir : String) (entries : List RollbackEntry) :
    (rollbackAll exnAt fs rbDir entries).trace.filterMap attemptedOf =
      entries.reverse := by
  simp [rollbackAll, rollbackLoop_trace, List.filterMap_append,
    attemptedOf, filterMap_attempted]

/-- C5: `rollback_all` is best-effort per entry — whatever the per-entry
outcomes (missing backup, or an exception from the metadata repoint),
`success + failed` equals the number of recorded entries, every recorded
entry is attempted, and the per-run temp directory is removed after the
loop (the trace ends with the removal, and no path under the directory
survives). -/
theorem rollback_all_best_effort (exnAt : Nat → Bool) (fs : FS)
    (rbDir : String) (entries : List RollbackEntry) :
    (rollbackAll exnAt fs rbDir entries).success +
        (rollbackAll exnAt fs rbDir entries).failed = entries.length ∧
    (∀ e ∈ entries,
      RbAction.attemptRestore e ∈ (rollbackAll exnAt fs rbDir entries).trace) ∧
    (rollbackAll exnAt fs rbDir entries).trace.getLast? =
      some RbAction.removeTempDir ∧
    (∀ p, isUnder rbDir p = true →
      (rollbackAll exnAt fs rbDir entries).fs p = none) := by
  refine ⟨?_, ?_, ?_, ?_⟩
  · have h := rollbackLoop_tally exnAt entries.reverse 0 { fs := fs }
    simp only [rollbackAll]
    simpa using h
  · intro e he
    have hm : RbAction.attemptRestore e ∈
        entries.reverse.map RbAction.attemptRestore :=
      List.mem_map_of_mem _ (List.mem_reverse.mpr he)
    simp only [rollbackAll, rollbackLoop_trace, List.nil_append]
    exact List.mem_append.mpr (Or.inl hm)
  · simp [rollbackAll, List.getLast?_concat]
  · intro p hp
    simp [rollbackAll, FS.eraseDir, hp]

/-- Witness for C3: the encode for candidate 0 raises `boom`; candidate 1
is still processed. -/
theorem worker_exception_isolated_witness :
    (wEnvExn.abortObs 0 = false) ∧ ((wCand 0 true).selected = true) ∧
    (wEnvExn.transcode 0 = .error "boom" ∨
      ∃ r, wEnvExn.transcode 0 = .ok r ∧ r.success = true ∧
        wCbId () { wCand 0 true with status := .success, result := some r } =
          .error "boom") ∧
    (∃ ch, runFrom wEnvExn wCbId () 0 (wCand 0 true :: [wCand 1 true]) =
        (ch :: (runFrom wEnvExn wCbId () 1 [wCand 1 true]).1,
          (runFrom wEnvExn wCbId () 1 [wCand 1 true]).2.1,
          .started 0 :: .completed 0 ::
            (runFrom wEnvExn wCbId () 1 [wCand 1 true]).2.2) ∧
      ch.songId = (wCand 0 true).songId ∧ ch.status = .failed ∧
      ch.errorMessage = some "boom") :=
  ⟨rfl, rfl, Or.inl rfl,
    worker_exception_isolated wEnvExn wCbId () 0 (wCand 0 true) [wCand 1 true]
      "boom" rfl rfl (Or.inl rfl)⟩

theorem setRolledBackFor_get (sid : Nat) :
    ∀ (cs : List Candidate) (i : Nat),
      (setRolledBackFor sid cs).get? i = cs.get? i ∨
      ∃ c, cs.get? i = some c ∧ c.status = .success ∧
        (setRolledBackFor sid cs).get? i = some { c with status := .rolledBack } := by
  intro cs
  induction cs with
  | nil => intro i; left; rfl
  | cons c cs ih =>
    intro i
    by_cases hid : c.songId = sid
    · by_cases hst : c.status = .success
      · cases i with
        | zero =>
          right
          exact ⟨c, rfl, hst, by simp [setRolledBackFor, hid, hst]⟩
        | succ i =>
          left
          simp [setRolledBackFor, hid, hst]
      · left
        simp [setRolledBackFor, hid, hst]
    · cases i with
      | zero => left; simp [setRolledBackFor, hid]
      | succ i =>
        rcases ih i with h | ⟨c2, h1, h2, h3⟩
        · left; simpa [setRolledBackFor, hid] using h
        · right
          exact ⟨c2, h1, h2, by simpa [setRolledBackFor, hid] using h3⟩

theorem applyRolledBack_get :
    ∀ (ids : List Nat) (cs : List Candidate) (i : Nat),
      (applyRolledBack ids cs).get? i = cs.get? i ∨
      ∃ c, cs.get? i = some c ∧ c.status = .success ∧
        (applyRolledBack ids cs).get? i = some { c with status := .rolledBack } := by
  intro ids
  induction ids with
  | nil => intro cs i; left; rfl
  | cons sid ids ih =>
    intro cs i
    have hfold : applyRolledBack (sid :: ids) cs =
        applyRolledBack ids (setRolledBackFor sid cs) := rfl
    rw [hfold]
    rcases ih (setRolledBackFor sid cs) i with h | ⟨c2, h1, h2, h3⟩
    · rcases setRolledBackFor_get sid cs i with h' | ⟨c, h1, h2, h3⟩
      · left; rw [h, h']
      · right; exact ⟨c, h1, h2, by rw [h, h3]⟩
    · rcases setRolledBackFor_get sid cs i with h' | ⟨c, h1', h2', h3'⟩
      · right; exact ⟨c2, h' ▸ h1, h2, h3⟩
      · exfalso
        rw [h3'] at h1
        injection h1 with hv
        rw [← hv] at h2
        simp at h2

theorem processOne_status {σ : Type} (tr : Except String TranscodeResult)
    (cb : σ → Candidate → Except String σ) (st : σ) (c : Candidate) :
    (processOne tr cb st c).1.status = .failed ∨
    (processOne tr cb st c).1.status = .success ∨
    (processOne tr cb st c).1.status = .aborted := by
  unfold processOne
  rcases tr with msg | r
  · left; rfl
  · dsimp only
    by_cases hs : r.success = true
    · simp only [hs, if_true]
      cases cb st { c with result := some r, status := .success } <;> simp
    · by_cases ha : r.aborted = true <;> simp [hs, ha]

theorem processOne_ne_rolledBack {σ : Type} (tr : Except String TranscodeResult)
    (cb : σ → Candidate → Except String σ) (st : σ) (c : Candidate) :
    (processOne tr cb st c).1.status ≠ .rolledBack := by
  rcases processOne_status tr cb st c with h | h | h <;> simp [h]

theorem markAbort_status (c : Candidate)
    (h : c.status ≠ .rolledBack) : (markAbort c).status ≠ .rolledBack := by
  unfold markAbort
  split
  · cases c.selected <;> simp
  · exact h

theorem runFrom_no_rolledBack {σ : Type} (env : WEnv)
    (cb : σ → Candidate → Except String σ) :
    ∀ (cs : List Candidate) (a : Nat) (st : σ),
      (∀ c ∈ cs, c.status ≠ .rolledBack) →
      ∀ (i : Nat) (c2 : Candidate),
        (runFrom env cb st a cs).1.get? i = some c2 → c2.status ≠ .rolledBack := by
  intro cs
  induction cs with
  | nil => intro a st _ i c2 h; simp [runFrom] at h
  | cons c rest ih =>
    intro a st hcs i c2 hget
    by_cases h0 : env.abortObs a = true
    · simp only [runFrom, h0, if_true] at hget
      rw [List.get?_map] at hget
      rcases Option.map_eq_some'.mp hget with ⟨c1, h1, h2⟩
      have hmem : c1 ∈ c :: rest := List.get?_mem h1
      rw [← h2]
      exact markAbort_status c1 (hcs c1 hmem)
    · have h0' : env.abortObs a = false := by
        revert h0; cases env.abortObs a <;> simp
      by_cases hsel : c.selected = true
      · simp only [runFrom, h0', Bool.false_eq_true, if_false, hsel, if_true] at hget
        cases i with
        | zero =>
          simp only [List.get?] at hget
          injection hget with hc2
          rw [← hc2]
          exact processOne_ne_rolledBack _ _ _ _
        | succ i =>
          simp only [List.get?] at hget
          exact ih (a + 1) _ (fun x hx => hcs x (List.mem_cons_of_mem c hx)) i c2 hget
      · simp only [runFrom, h0', Bool.false_eq_true, if_false, hsel, if_false] at hget
        cases i with
        | zero =>
          simp only [List.get?] at hget
          injection hget with hc2
          rw [← hc2]
          simp
        | succ i =>
          simp only [List.get?] at hget
          exact ih (a + 1) _ (fun x hx => hcs x (List.mem_cons_of_mem c hx)) i c2 hget

/-- C7: starting from an all-`pending` candidate list, a candidate whose
final status (after the worker run and `_handle_abort`'s rollback status
update) is `rolled_back` necessarily had status `success` when the worker
returned — `rolled_back` is reachable only from `success`, never from
`pending`, `transcoding`, `failed`, `aborted` or `skipped`. -/
theorem rolled_back_only_from_success {σ : Type} (env : WEnv)
    (cb : σ → Candidate → Except String σ) (st : σ) (cs : List Candidate)
    (ids : List Nat) (i : Nat) (c2 : Candidate)
    (hpend : ∀ c ∈ cs, c.status = .pending)
    (hget : (applyRolledBack ids (runWorker env cb st cs).1).get? i = some c2)
    (hrb : c2.status = .rolledBack) :
    ∃ c1, (runWorker env cb st cs).1.get? i = some c1 ∧
      c1.status = .success ∧ c2 = { c1 with status := .rolledBack } := by
  rcases applyRolledBack_get ids (runWorker env cb st cs).1 i with heq | ⟨c1, h1, h2, h3⟩
  · exfalso
    have hw : (runWorker env cb st cs).1.get? i = some c2 := by rw [← heq, hget]
    have hne : ∀ c ∈ cs, c.status ≠ .rolledBack := by
      intro c hc
      rw [hpend c hc]
      simp
    exact runFrom_no_rolledBack env cb cs 0 st hne i c2 hw hrb
  · rw [hget] at h3
    exact ⟨c1, h1, h2, Option.some.inj h3⟩

/-- Witness for C7: one candidate, transcoded successfully, then rolled
back by `_handle_abort`. -/
theorem rolled_back_only_from_success_witness :
    (∀ c ∈ [wCand 0 true], c.status = .pending) ∧
    ((applyRolledBack [0] (runWorker wEnvOk wCbId () [wCand 0 true]).1).get? 0 =
      some wRolledC) ∧
    (wRolledC.status = .rolledBack) ∧
    (∃ c1, (runWorker wEnvOk wCbId () [wCand 0 true]).1.get? 0 = some c1 ∧
      c1.status = .success ∧ wRolledC = { c1 with status := .rolledBack }) :=
  ⟨by decide, by decide, rfl,
    rolled_back_only_from_success wEnvOk wCbId () [wCand 0 true] [0] 0 wRolledC
      (by decide) (by decide) rfl⟩

/-- C8: if rollback protection is requested and the backup-copy phase
does not succeed — it failed and the user declined to continue without
rollback protection, or it was cancelled — then `_execute_batch` returns
before constructing the Batch Worker: the worker is never started and
the candidate list (in particular every `pending` status) is returned
exactly as it was. -/
theorem backup_failure_fail_closed (rollbackEnabled : Bool)
    (phase : BackupPhase) (cs : List Candidate)
    (hroll : rollbackEnabled = true)
    (hfail : backupSuccess phase = false) :
    (executeBatch rollbackEnabled phase cs).1 = false ∧
    (executeBatch rollbackEnabled phase cs).2 = cs := by
  unfold executeBatch
  split
  · exact ⟨rfl, rfl⟩
  · rw [if_pos ⟨hroll, hfail⟩]
    exact ⟨rfl, rfl⟩

/-- Witness for C8: rollback enabled, backup phase failed, user declined
to continue. -/
theorem backup_failure_fail_closed_witness :
    (true = true) ∧ (backupSuccess (BackupPhase.error false) = false) ∧
    ((executeBatch true (BackupPhase.error false) [wCand 0 true]).1 = false ∧
      (executeBatch true (BackupPhase.error false) [wCand 0 true]).2 =
        [wCand 0 true]) :=
  ⟨rfl, rfl, backup_failure_fail_closed true (BackupPhase.error false)
    [wCand 0 true] rfl rfl⟩

theorem preserveEntry_pointwise (sfx : String) (cands : List Candidate)
    (fs : FS) (e : RollbackEntry) (q : String) :
    preserveEntry sfx cands fs e q = fs q ∨
    (q = userBackupPath sfx e.originalPath ∧
      preserveEntry sfx cands fs e q = fs e.rollbackBackupPath) := by
  unfold preserveEntry
  cases hfind : cands.find? (fun c => c.songId == e.songId) with
  | none => left; rfl
  | some cand =>
    dsimp only
    cases hres : cand.result with
    | none => left; rfl
    | some r =>
      dsimp only
      by_cases hs : r.success = true
      · rw [if_pos hs]
        by_cases hub : fs.exists (userBackupPath sfx e.originalPath) = true
        · rw [if_pos hub]
          by_cases hrb : fs.exists e.rollbackBackupPath = true
          · rw [if_pos hrb]
            have hrb' : (fs e.rollbackBackupPath).isSome = true := hrb
            rcases Option.isSome_iff_exists.mp hrb' with ⟨b, hb⟩
            by_cases hq : q = userBackupPath sfx e.originalPath
            · right
              refine ⟨hq, ?_⟩
              simp [FS.copy, hb, FS.write, hq]
            · left
              simp [FS.copy, hb, FS.write, hq]
          · rw [if_neg hrb]; left; rfl
        · rw [if_neg hub]; left; rfl
      · rw [if_neg hs]; left; rfl

theorem preserve_foldl_inv (sfx : String) (cands : List Candidate)
    (e : RollbackEntry) (b : Bytes) :
    ∀ (l : List RollbackEntry) (fs : FS),
      (∀ e2 ∈ l, e2 ≠ e →
        userBackupPath sfx e2.originalPath ≠ userBackupPath sfx e.originalPath ∧
        userBackupPath sfx e2.originalPath ≠ e.rollbackBackupPath) →
      fs e.rollbackBackupPath = some b →
      (fs (userBackupPath sfx e.originalPath)).isSome = true →
      (applyBackupPreservationRule sfx cands fs l) e.rollbackBackupPath = some b ∧
      ((applyBackupPreservationRule sfx cands fs l)
        (userBackupPath sfx e.originalPath)).isSome = true := by
  intro l
  induction l with
  | nil => intro fs _ h1 h2; exact ⟨h1, h2⟩
  | cons e2 l ih =>
    intro fs hsep h1 h2
    have hstep : applyBackupPreservationRule sfx cands fs (e2 :: l) =
        applyBackupPreservationRule sfx cands (preserveEntry sfx cands fs e2) l := rfl
    rw [hstep]
    have hsep' : ∀ e3 ∈ l, e3 ≠ e →
        userBackupPath sfx e3.originalPath ≠ userBackupPath sfx e.originalPath ∧
        userBackupPath sfx e3.originalPath ≠ e.rollbackBackupPath :=
      fun e3 h3 => hsep e3 (List.mem_cons_of_mem e2 h3)
    have hrb2 : (preserveEntry sfx cands fs e2) e.rollbackBackupPath = some b := by
      rcases preserveEntry_pointwise sfx cands fs e2 e.rollbackBackupPath with h | ⟨hq, hv⟩
      · rw [h, h1]
      · by_cases heq : e2 = e
        · rw [hv, heq, h1]
        · exact absurd hq.symm (hsep e2 (List.mem_cons_self e2 l) heq).2
    have hub2 : ((preserveEntry sfx cands fs e2)
        (userBackupPath sfx e.originalPath)).isSome = true := by
      rcases preserveEntry_pointwise sfx cands fs e2
          (userBackupPath sfx e.originalPath) with h | ⟨hq, hv⟩
      · rw [h]; exact h2
      · by_cases heq : e2 = e
        · rw [hv, heq, h1]; rfl
        · exact absurd hq.symm (hsep e2 (List.mem_cons_self e2 l) heq).1
    exact ih (preserveEntry sfx cands fs e2) hsep' hrb2 hub2

theorem preserve_foldl_keep (sfx : String) (cands : List Candidate)
    (e : RollbackEntry) (b : Bytes) :
    ∀ (l : List RollbackEntry) (fs : FS),
      (∀ e2 ∈ l, e2 ≠ e →
        userBackupPath sfx e2.originalPath ≠ userBackupPath sfx e.originalPath ∧
        userBackupPath sfx e2.originalPath ≠ e.rollbackBackupPath) →
      fs e.rollbackBackupPath = some b →
      fs (userBackupPath sfx e.originalPath) = some b →
      (applyBackupPreservationRule sfx cands fs l)
        (userBackupPath sfx e.originalPath) = some b := by
  intro l
  induction l with
  | nil => intro fs _ _ h2; exact h2
  | cons e2 l ih =>
    intro fs hsep h1 h2
    have hstep : applyBackupPreservationRule sfx cands fs (e2 :: l) =
        applyBackupPreservationRule sfx cands (preserveEntry sfx cands fs e2) l := rfl
    rw [hstep]
    have hsep' : ∀ e3 ∈ l, e3 ≠ e →
        userBackupPath sfx e3.originalPath ≠ userBackupPath sfx e.originalPath ∧
        userBackupPath sfx e3.originalPath ≠ e.rollbackBackupPath :=
      fun e3 h3 => hsep e3 (List.mem_cons_of_mem e2 h3)
    have hrb2 : (preserveEntry sfx cands fs e2) e.rollbackBackupPath = some b := by
      rcases preserveEntry_pointwise sfx cands fs e2 e.rollbackBackupPath with h | ⟨hq, hv⟩
      · rw [h, h1]
      · by_cases heq : e2 = e
        · rw [hv, heq, h1]
        · exact absurd hq.symm (hsep e2 (List.mem_cons_self e2 l) heq).2
    have hub2 : (preserveEntry sfx cands fs e2)
        (userBackupPath sfx e.originalPath) = some b := by
      rcases preserveEntry_pointwise sfx cands fs e2
          (userBackupPath sfx e.originalPath) with h | ⟨hq, hv⟩
      · rw [h]; exact h2
      · by_cases heq : e2 = e
        · rw [hv, heq, h1]
        · exact absurd hq.symm (hsep e2 (List.mem_cons_self e2 l) heq).1
    exact ih (preserveEntry sfx cands fs e2) hsep' hrb2 hub2

theorem preserveEntry_writes (sfx : String) (cands : List Candidate)
    (fs : FS) (e : RollbackEntry) (b : Bytes) (cand : Candidate)
    (r : TranscodeResult)
    (hfind : cands.find? (fun c => c.songId == e.songId) = some cand)
    (hres : cand.result = some r) (hsucc : r.success = true)
    (hub : (fs (userBackupPath sfx e.originalPath)).isSome = true)
    (hrb : fs e.rollbackBackupPath = some b) :
    (preserveEntry sfx cands fs e) (userBackupPath sfx e.originalPath) = some b ∧
    (preserveEntry sfx cands fs e) e.rollbackBackupPath = some b := by
  have hube : fs.exists (userBackupPath sfx e.originalPath) = true := hub
  have hrbe : fs.exists e.rollbackBackupPath = true := by
    show (fs e.rollbackBackupPath).isSome = true
    rw [hrb]; rfl
  unfold preserveEntry
  rw [hfind]
  dsimp only
  rw [hres]
  dsimp only
  simp only [hsucc, if_true, hube, hrbe]
  constructor
  · simp [FS.copy, hrb, FS.write]
  · simp only [FS.copy, hrb, FS.write]
    split
    · rfl
    · rfl

/-- C9: after a batch completes without abort with rollback enabled, for
a recorded entry whose candidate had a pre-existing user-facing backup
(`userBackupExisted = true`, so — absent outside interference — that
backup still exists at completion, hypothesis `hub`), the finalization
(`_apply_backup_preservation_rule` then `cleanup_rollback_data`) leaves
the user-facing backup holding exactly the bytes of the entry's rollback
backup (the pre-transcode bytes), and afterwards every path under the
rollback temp directory — all rollback-backup files — is gone. -/
theorem backup_preservation (sfx rbDir : String) (cands : List Candidate)
    (fs : FS) (entries : List RollbackEntry) (e : RollbackEntry) (b : Bytes)
    (he : e ∈ entries)
    (_hexisted : e.userBackupExisted = true)
    (hfound : ∃ cand, cands.find? (fun c => c.songId == e.songId) = some cand ∧
      ∃ r, cand.result = some r ∧ r.success = true)
    (hrb : fs e.rollbackBackupPath = some b)
    (hub : (fs (userBackupPath sfx e.originalPath)).isSome = true)
    (hsep : ∀ e2 ∈ entries, e2 ≠ e →
      userBackupPath sfx e2.originalPath ≠ userBackupPath sfx e.originalPath ∧
      userBackupPath sfx e2.originalPath ≠ e.rollbackBackupPath)
    (hout : isUnder rbDir (userBackupPath sfx e.originalPath) = false) :
    finalizeSuccess sfx rbDir cands fs entries
      (userBackupPath sfx e.originalPath) = some b ∧
    ∀ p, isUnder rbDir p = true →
      finalizeSuccess sfx rbDir cands fs entries p = none := by
  rcases hfound with ⟨cand, hfind, r, hres, hsucc⟩
  rcases List.append_of_mem he with ⟨l1, l2, hsplit⟩
  constructor
  · have hfold : applyBackupPreservationRule sfx cands fs entries =
        applyBackupPreservationRule sfx cands
          (preserveEntry sfx cands (applyBackupPreservationRule sfx cands fs l1) e) l2 := by
      rw [hsplit]
      simp [applyBackupPreservationRule, List.foldl_append]
    have hsep1 : ∀ e2 ∈ l1, e2 ≠ e →
        userBackupPath sfx e2.originalPath ≠ userBackupPath sfx e.originalPath ∧
        userBackupPath sfx e2.originalPath ≠ e.rollbackBackupPath := by
      intro e2 h2
      exact hsep e2 (hsplit ▸ List.mem_append_left _ h2)
    have hsep2 : ∀ e2 ∈ l2, e2 ≠ e →
        userBackupPath sfx e2.originalPath ≠ userBackupPath sfx e.originalPath ∧
        userBackupPath sfx e2.originalPath ≠ e.rollbackBackupPath := by
      intro e2 h2
      exact hsep e2 (hsplit ▸ List.mem_append_right _ (List.mem_cons_of_mem e h2))
    have h1 := preserve_foldl_inv sfx cands e b l1 fs hsep1 hrb hub
    have hw := preserveEntry_writes sfx cands
      (applyBackupPreservationRule sfx cands fs l1) e b cand r hfind hres hsucc
      h1.2 h1.1
    have hkeep := preserve_foldl_keep sfx cands e b l2
      (preserveEntry sfx cands (applyBackupPreservationRule sfx cands fs l1) e)
      hsep2 hw.2 hw.1
    show (applyBackupPreservationRule sfx cands fs entries).eraseDir rbDir
        (userBackupPath sfx e.originalPath) = some b
    rw [hfold]
    simp [FS.eraseDir, hout, hkeep]
  · intro p hp
    show (applyBackupPreservationRule sfx cands fs entries).eraseDir rbDir p = none
    simp [FS.eraseDir, hp]

/-- Witness for C9: one recorded entry for `a.mp4`, its pre-existing user
backup `a-source.mp4` holding stale bytes, the rollback backup holding
the pre-transcode bytes `[3]`. -/
theorem backup_preservation_witness :
    (wPresE ∈ [wPresE]) ∧ (wPresE.userBackupExisted = true) ∧
    (∃ cand, ([wPresCand] : List Candidate).find?
        (fun c => c.songId == wPresE.songId) = some cand ∧
      ∃ r, cand.result = some r ∧ r.success = true) ∧
    (wPresFS wPresE.rollbackBackupPath = some [3]) ∧
    ((wPresFS (userBackupPath "-source" wPresE.originalPath)).isSome = true) ∧
    (∀ e2 ∈ [wPresE], e2 ≠ wPresE →
      userBackupPath "-source" e2.originalPath ≠
        userBackupPath "-source" wPresE.originalPath ∧
      userBackupPath "-source" e2.originalPath ≠ wPresE.rollbackBackupPath) ∧
    (isUnder "/tmp/rb" (userBackupPath "-source" wPresE.originalPath) = false) ∧
    (finalizeSuccess "-source" "/tmp/rb" [wPresCand] wPresFS [wPresE]
        (userBackupPath "-source" wPresE.originalPath) = some [3] ∧
      ∀ p, isUnder "/tmp/rb" p = true →
        finalizeSuccess "-source" "/tmp/rb" [wPresCand] wPresFS [wPresE] p = none) := by
  refine ⟨by decide, rfl, ?_, by decide, by decide, ?_, by decide, ?_⟩
  · exact ⟨wPresCand, by decide,
      ⟨{ success := true, outputPath := some "a.mp4" }, rfl, rfl⟩⟩
  · intro e2 h2 hne
    exact absurd (by simpa using h2) hne
  · exact backup_preservation "-source" "/tmp/rb" [wPresCand] wPresFS [wPresE]
      wPresE [3] (by decide) rfl
      ⟨wPresCand, by decide,
        ⟨{ success := true, outputPath := some "a.mp4" }, rfl, rfl⟩⟩
      (by decide) (by decide)
      (fun e2 h2 hne => absurd (by simpa using h2) hne)
      (by decide)

theorem copyChunks_abort (pollAbort : Nat → Bool) (dst : String) :
    ∀ (rem : List Nat) (j k : Nat) (fs : FS), j ≤ rem.length →
      (∀ m, m < j → pollAbort (k + m) = false) → pollAbort (k + j) = true →
      (copyChunks pollAbort dst k fs rem).2 = false ∧
      (copyChunks pollAbort dst k fs rem).1 dst = none ∧
      ∀ q, q ≠ dst → (copyChunks pollAbort dst k fs rem).1 q = fs q := by
  intro rem
  induction rem with
  | nil =>
    intro j k fs hj hfirst habort
    have hj0 : j = 0 := Nat.le_zero.mp hj
    subst hj0
    rw [Nat.add_zero] at habort
    simp only [copyChunks, habort, if_true]
    exact ⟨by trivial, by simp [FS.erase], fun q hq => by simp [FS.erase, hq]⟩
  | cons ch rest ih =>
    intro j k fs hj hfirst habort
    cases j with
    | zero =>
      rw [Nat.add_zero] at habort
      simp only [copyChunks, habort, if_true]
      exact ⟨by trivial, by simp [FS.erase], fun q hq => by simp [FS.erase, hq]⟩
    | succ j =>
      have h0 : pollAbort k = false := by
        have := hfirst 0 (Nat.succ_pos j)
        rwa [Nat.add_zero] at this
      have hfirst' : ∀ m, m < j → pollAbort (k + 1 + m) = false := by
        intro m hm
        have := hfirst (m + 1) (Nat.succ_lt_succ hm)
        rwa [show k + (m + 1) = k + 1 + m by omega] at this
      have habort' : pollAbort (k + 1 + j) = true := by
        rwa [show k + 1 + j = k + (j + 1) by omega]
      have hj' : j ≤ rest.length := by
        simpa using Nat.le_of_succ_le_succ hj
      have ih' := ih j (k + 1) (fs.write dst (((fs dst).getD []) ++ [ch]))
        hj' hfirst' habort'
      simp only [copyChunks, h0, Bool.false_eq_true, if_false]
      refine ⟨ih'.1, ih'.2.1, ?_⟩
      intro q hq
      rw [ih'.2.2 q hq]
      simp [FS.write, hq]

/-- C10: if the backup worker, while in the chunked copy of candidate
`i`'s file (the top-of-candidate poll saw no abort), observes the abort
request at an in-copy poll, it unlinks the partially written
rollback-backup file and only then emits the `aborted` signal — the
event list places the removal before the signal — so the aborted backup
phase leaves no partial rollback-backup file: the destination path maps
to nothing, every other path is untouched, and no further candidate is
processed. -/
theorem backup_abort_removes_partial (pollAbort : Nat → Nat → Bool)
    (rbDir : String) (total i : Nat) (fs : FS) (c : Candidate)
    (rest : List Candidate) (content : Bytes) (j : Nat)
    (htop : pollAbort i 0 = false)
    (hsrc : fs c.videoPath = some content)
    (hj : j ≤ content.length)
    (hfirst : ∀ m, m < j → pollAbort i (m + 1) = false)
    (habort : pollAbort i (j + 1) = true) :
    ∃ fs2, runBackupAux pollAbort rbDir total i fs (c :: rest) =
        (fs2, [.progress i total,
          .removedPartial (getRollbackBackupPath rbDir c.songId c.videoPath),
          .abortedSig]) ∧
      fs2 (getRollbackBackupPath rbDir c.songId c.videoPath) = none ∧
      ∀ q, q ≠ getRollbackBackupPath rbDir c.songId c.videoPath → fs2 q = fs q := by
  have hfirst' : ∀ m, m < j →
      (fun k => pollAbort i (k + 1)) (0 + m) = false := by
    intro m hm; simpa using hfirst m hm
  have habort' : (fun k => pollAbort i (k + 1)) (0 + j) = true := by
    simpa using habort
  have hc := copyChunks_abort (fun k => pollAbort i (k + 1))
    (getRollbackBackupPath rbDir c.songId c.videoPath) content j 0
    (fs.write (getRollbackBackupPath rbDir c.songId c.videoPath) [])
    hj hfirst' habort'
  refine ⟨(copyChunks (fun k => pollAbort i (k + 1))
      (getRollbackBackupPath rbDir c.songId c.videoPath) 0
      (fs.write (getRollbackBackupPath rbDir c.songId c.videoPath) []) content).1,
    ?_, hc.2.1, ?_⟩
  · simp only [runBackupAux, htop, Bool.false_eq_true, if_false, hsrc, hc.1]
  · intro q hq
    rw [hc.2.2 q hq]
    simp [FS.write, hq]

/-- Witness for C10: a three-chunk source, the abort observed at the
second in-copy poll of candidate 0. -/
theorem backup_abort_removes_partial_witness :
    (wPollAbort 0 0 = false) ∧
    (wCopyFS (wCand 0 true).videoPath = some [5, 6, 7]) ∧
    (1 ≤ ([5, 6, 7] : Bytes).length) ∧
    (∀ m, m < 1 → wPollAbort 0 (m + 1) = false) ∧
    (wPollAbort 0 (1 + 1) = true) ∧
    (∃ fs2, runBackupAux wPollAbort "/tmp/rb" 1 0 wCopyFS [wCand 0 true] =
        (fs2, [.progress 0 1,
          .removedPartial
            (getRollbackBackupPath "/tmp/rb" (wCand 0 true).songId
              (wCand 0 true).videoPath),
          .abortedSig]) ∧
      fs2 (getRollbackBackupPath "/tmp/rb" (wCand 0 true).songId
        (wCand 0 true).videoPath) = none ∧
      ∀ q, q ≠ getRollbackBackupPath "/tmp/rb" (wCand 0 true).songId
          (wCand 0 true).videoPath → fs2 q = wCopyFS q) :=
  ⟨by decide, by decide, by decide, by decide, by decide,
    backup_abort_removes_partial wPollAbort "/tmp/rb" 1 0 wCopyFS
      (wCand 0 true) [] [5, 6, 7] 1
      (by decide) (by decide) (by decide) (by decide) (by decide)⟩

/-- C6 (code bug): in a rollback-enabled run in which a candidate's
encode succeeds with an output path, the success hand-off raises
`TypeError` — `_on_video_success` passes a `media_type` argument that
the `RollbackManager` API in `src/rollback.py` does not accept — so the
rollback entry list stays empty and the successfully transcoded
candidate is marked `failed` with the `TypeError` text.  The spec
instead expects a `RollbackEntry` to be recorded after every verified
success. -/
theorem success_handoff_type_error :
    ((runWorker wEnvOk onVideoSuccess (some { rollbackDir := "/tmp/rb" })
      [wCand 1 true]).1.map (fun c => c.status) = [.failed]) ∧
    ((runWorker wEnvOk onVideoSuccess (some { rollbackDir := "/tmp/rb" })
      [wCand 1 true]).1.map (fun c => c.errorMessage) =
      [some "TypeError: get_rollback_backup_path() got an unexpected keyword argument media_type"]) ∧
    ((runWorker wEnvOk onVideoSuccess (some { rollbackDir := "/tmp/rb" })
      [wCand 1 true]).2.1 = some { rollbackDir := "/tmp/rb", entries := [] }) := by
  decide

end BatchEngine
